import Mathlib

/-!
# Verification of the mechanical-dog simulation engine

Shallow embedding of the two Python variants of the simulation engine
(`dog_simulation_slow.py`, class `MechanicalDog`, and
`dog_simulation_optimized.py`, class `MechanicalDogOptimized`).

Modelling conventions:
* Python floats are modelled by exact rationals `ℚ`; `math.sqrt` is modelled
  by `Real.sqrt` on the cast to `ℝ` (so distance-returning operations land
  in `ℝ`).
* 3-component position lists are modelled by the triple `Vec3 := ℚ × ℚ × ℚ`
  (the Python lists always have exactly three components).
* Mutation of the object is modelled by explicit state passing: a mutator
  takes a state and returns the updated state (paired with the Python return
  value when there is one).
* Python list indexing `l[i]` (which accepts negative indices counting from
  the end, and raises `IndexError` out of range) is modelled by `pyIndex`,
  returning `Option`.
* `num_samples` is modelled as `ℤ` so that negative-argument behaviour is
  captured: `range(n)` is empty for `n ≤ 0` while `n * n` is non-negative.
-/

namespace DogSim

/-- A 3-component coordinate vector (`[x, y, z]` in the Python source). -/
abbrev Vec3 := ℚ × ℚ × ℚ

/-- Component access for the Python loops `for j in range(3)` over a
3-element coordinate list. -/
def coord (v : Vec3) : ℕ → ℚ
  | 0 => v.1
  | 1 => v.2.1
  | 2 => v.2.2
  | _ => 0

/-- Python list indexing `l[i]`: a negative index counts from the end;
out-of-range access raises `IndexError`, modelled as `none`. -/
def pyIndex {α : Type} (l : List α) (i : ℤ) : Option α :=
  let j : ℤ := if i < 0 then i + l.length else i
  if 0 ≤ j then l.get? j.toNat else none

/-- State of `MechanicalDog` (slow variant): fields of `__init__` in
`dog_simulation_slow.py`. `movement_history` is an unbounded list. -/
structure MechanicalDog where
  name : String
  position : Vec3
  velocity : Vec3
  leg_positions : List Vec3
  sensor_data : List ℚ
  movement_history : List Vec3

/-- `MechanicalDog.__init__(name)`. -/
def MechanicalDog.mk0 (name : String) : MechanicalDog :=
  { name := name
    position := (0, 0, 0)
    velocity := (0, 0, 0)
    leg_positions := List.replicate 4 (0, 0, 0)
    sensor_data := []
    movement_history := [] }

/-- State of `MechanicalDogOptimized`: fields of `__init__` in
`dog_simulation_optimized.py`. `movement_history` models the
`deque(maxlen=max_history)`: a list holding the newest snapshot last,
together with its capacity `max_history`. -/
structure MechanicalDogOptimized where
  name : String
  position : Vec3
  velocity : Vec3
  leg_positions : List Vec3
  sensor_data : List ℚ
  movement_history : List Vec3
  max_history : ℕ

/-- `MechanicalDogOptimized.__init__(name, max_history=1000)`. -/
def MechanicalDogOptimized.mk0 (name : String) (max_history : ℕ := 1000) :
    MechanicalDogOptimized :=
  { name := name
    position := (0, 0, 0)
    velocity := (0, 0, 0)
    leg_positions := List.replicate 4 (0, 0, 0)
    sensor_data := []
    movement_history := []
    max_history := max_history }

/-- Appending to a `deque` with `maxlen = m`: the new element goes to the
back and the front is dropped once the length would exceed `m`
(for `m = 0` the deque stays empty). -/
def dequeAppend (m : ℕ) (h : List Vec3) (v : Vec3) : List Vec3 :=
  let h' := h ++ [v]
  h'.drop (h'.length - m)

/-- `MechanicalDog.update_position(delta_time)` (slow): builds the new
3-element position list component by component from
`position[i] + velocity[i] * delta_time`, then appends a copy of the new
position to the unbounded `movement_history`. -/
def MechanicalDog.update_position (s : MechanicalDog) (delta_time : ℚ) :
    MechanicalDog :=
  let new_position : Vec3 :=
    (s.position.1 + s.velocity.1 * delta_time,
     s.position.2.1 + s.velocity.2.1 * delta_time,
     s.position.2.2 + s.velocity.2.2 * delta_time)
  { s with position := new_position
           movement_history := s.movement_history ++ [new_position] }

/-- `MechanicalDogOptimized.update_position(delta_time)`: updates the three
position components in place by `position[i] += velocity[i] * delta_time`,
then appends a snapshot to the bounded history deque. -/
def MechanicalDogOptimized.update_position (s : MechanicalDogOptimized)
    (delta_time : ℚ) : MechanicalDogOptimized :=
  let new_position : Vec3 :=
    (s.position.1 + s.velocity.1 * delta_time,
     s.position.2.1 + s.velocity.2.1 * delta_time,
     s.position.2.2 + s.velocity.2.2 * delta_time)
  { s with position := new_position
           movement_history :=
             dequeAppend s.max_history s.movement_history new_position }

/-- `MechanicalDog.calculate_leg_kinematics(leg_index, target_position)`
(slow): the trigonometric warm-up loop computes `angles` and discards them
(no effect on the result, omitted); the per-component differences are
round-tripped through a string, which is value-preserving, so the
differences are modelled directly; the result is
`sqrt(sum of squared differences)` over the three components.
Indexing `leg_positions[leg_index]` uses Python semantics (`pyIndex`);
`none` models the `IndexError`. -/
noncomputable def MechanicalDog.calculate_leg_kinematics (s : MechanicalDog)
    (leg_index : ℤ) (target_position : Vec3) : Option ℝ :=
  (pyIndex s.leg_positions leg_index).map fun leg =>
    let distances : List ℚ :=
      (List.range 3).map fun i => coord target_position i - coord leg i
    Real.sqrt ((distances.map fun d => d ^ 2).sum : ℚ)

/-- `MechanicalDogOptimized.calculate_leg_kinematics(leg_index,
target_position)`: direct differences `dx, dy, dz` and
`sqrt(dx*dx + dy*dy + dz*dz)`. Indexing uses Python semantics. -/
noncomputable def MechanicalDogOptimized.calculate_leg_kinematics
    (s : MechanicalDogOptimized) (leg_index : ℤ) (target_position : Vec3) :
    Option ℝ :=
  (pyIndex s.leg_positions leg_index).map fun leg =>
    let dx := target_position.1 - leg.1
    let dy := target_position.2.1 - leg.2.1
    let dz := target_position.2.2 - leg.2.2
    Real.sqrt ((dx * dx + dy * dy + dz * dz : ℚ))

/-- The flat list of readings built by the nested scanning loops
`for i in range(n): for j in range(n): ... i² + j²` (appending in order).
Used by both variants; `range(n)` is empty for `n ≤ 0`, hence `n.toNat`. -/
def scanReadings (num_samples : ℤ) : List ℚ :=
  (List.range num_samples.toNat).flatMap fun (i : ℕ) =>
    (List.range num_samples.toNat).map fun (j : ℕ) =>
      (i : ℚ) ^ 2 + (j : ℚ) ^ 2

/-- `MechanicalDog.scan_environment(num_samples)` (slow): builds the
readings by appending inside the nested loops, then *extends*
`sensor_data` with them (`self.sensor_data.extend(sensor_readings)`), and
returns the readings. `math.pow(i, 2)` is exact on these integer inputs. -/
def MechanicalDog.scan_environment (s : MechanicalDog) (num_samples : ℤ) :
    MechanicalDog × List ℚ :=
  let sensor_readings := scanReadings num_samples
  ({ s with sensor_data := s.sensor_data ++ sensor_readings },
   sensor_readings)

/-- The optimized scanning loop body: pre-allocated buffer of
`num_samples * num_samples` zeros, filled by `sensor_readings[idx] = i² + j²`
with `idx` incremented once per inner iteration. The state threaded through
the fold is the pair (buffer, idx); `List.set` is a no-op out of range
(the writes are proved in range below). -/
def scanFill (n : ℕ) (buf : List ℚ) : List ℚ :=
  ((List.range n).foldl
    (fun (p : List ℚ × ℕ) (i : ℕ) =>
      let i_squared : ℚ := (i : ℚ) * (i : ℚ)
      (List.range n).foldl
        (fun (q : List ℚ × ℕ) (j : ℕ) =>
          (q.1.set q.2 (i_squared + (j : ℚ) * (j : ℚ)), q.2 + 1))
        p)
    (buf, 0)).1

/-- `MechanicalDogOptimized.scan_environment(num_samples)`: allocates
`[0.0] * (num_samples * num_samples)` (a positive count even for negative
`num_samples`), fills it index by index with `i² + j²`, *replaces*
`sensor_data` wholesale, and returns the readings. -/
def MechanicalDogOptimized.scan_environment (s : MechanicalDogOptimized)
    (num_samples : ℤ) : MechanicalDogOptimized × List ℚ :=
  let total_readings := (num_samples * num_samples).toNat
  let sensor_readings :=
    scanFill num_samples.toNat (List.replicate total_readings (0 : ℚ))
  ({ s with sensor_data := sensor_readings }, sensor_readings)

/-- `MechanicalDog.find_obstacles(sensor_data)` (slow): builds a duplicate
free *list* of the readings strictly above the hard-coded threshold 1000,
appending a qualifying reading only when not already present. -/
def MechanicalDog.find_obstacles (_s : MechanicalDog)
    (sensor_data : List ℚ) : List ℚ :=
  sensor_data.foldl
    (fun obstacles reading =>
      if reading > 1000 then
        if reading ∉ obstacles then obstacles ++ [reading] else obstacles
      else obstacles)
    []

/-- `MechanicalDogOptimized.find_obstacles(sensor_data)`: builds a *set* of
the readings strictly above the hard-coded threshold 1000. -/
def MechanicalDogOptimized.find_obstacles (_s : MechanicalDogOptimized)
    (sensor_data : List ℚ) : Finset ℚ :=
  sensor_data.foldl
    (fun obstacles reading =>
      if reading > 1000 then insert reading obstacles else obstacles)
    ∅

/-- Spec-side obstacle classifier, named from the spec's words for
comparison with the code: `findObstacles(field, threshold=1000)` "produces
the set of distinct values in `field` strictly greater than `threshold`",
with `threshold` an accepted parameter defaulting to 1000. The code is
compared against it at the default and at a non-default threshold. -/
def findObstaclesSpec (field : List ℚ) (threshold : ℚ := 1000) : Finset ℚ :=
  (field.filter fun r => threshold < r).toFinset

/-- One proportional step of the slow planner: for each component
`next_pos[i] += (goal[i] - next_pos[i]) * 0.01` (each component only reads
its own coordinate, so the sequential in-place updates are componentwise). -/
def planStep (goal current : Vec3) : Vec3 :=
  (current.1 + (goal.1 - current.1) * (1 / 100),
   current.2.1 + (goal.2.1 - current.2.1) * (1 / 100),
   current.2.2 + (goal.2.2 - current.2.2) * (1 / 100))

/-- The squared distance `dx*dx + dy*dy + dz*dz` from `current` to `goal`
computed by the optimized planner. -/
def distSq (goal current : Vec3) : ℚ :=
  let dx := goal.1 - current.1
  let dy := goal.2.1 - current.2.1
  let dz := goal.2.2 - current.2.2
  dx * dx + dy * dy + dz * dz

open scoped Classical in
/-- The loop of `MechanicalDog.plan_path` (slow): up to `fuel` iterations;
stop when `sqrt(distSq) < 0.1`, else step toward the goal and append the
new position. The `sqrt` stopping test forces a classical conditional. -/
noncomputable def planLoopSlow (goal current : Vec3) : ℕ → List Vec3
  | 0 => []
  | fuel + 1 =>
    if Real.sqrt ((distSq goal current : ℚ) : ℝ) < 1 / 10 then []
    else
      let next_pos := planStep goal current
      next_pos :: planLoopSlow goal next_pos fuel

/-- `MechanicalDog.plan_path(start, goal, obstacles)` (slow): 1000-iteration
proportional stepper; `obstacles` is accepted (any type) and never used. -/
noncomputable def MechanicalDog.plan_path (_s : MechanicalDog)
    (start goal : Vec3) {α : Type} (_obstacles : α) : List Vec3 :=
  planLoopSlow goal start 1000

/-- The loop of `MechanicalDogOptimized.plan_path`: up to `fuel` iterations;
stop when `dist_squared < tolerance_sq` (= `0.1 * 0.1`), else step toward
the goal and append. -/
def planLoopOpt (goal current : Vec3) : ℕ → List Vec3
  | 0 => []
  | fuel + 1 =>
    if distSq goal current < (1 / 10) * (1 / 10) then []
    else
      let next := planStep goal current
      next :: planLoopOpt goal next fuel

/-- `MechanicalDogOptimized.plan_path(start, goal, obstacles)`:
1000-iteration proportional stepper with squared-distance stopping test;
`obstacles` is accepted (any type) and never used. -/
def MechanicalDogOptimized.plan_path (_s : MechanicalDogOptimized)
    (start goal : Vec3) {α : Type} (_obstacles : α) : List Vec3 :=
  planLoopOpt goal start 1000

/-- Euclidean length of the segment from `c` to `n`, as both variants
compute it (sum of the three squared component differences, then `sqrt`). -/
noncomputable def segLen (c n : Vec3) : ℝ :=
  Real.sqrt (((n.1 - c.1) * (n.1 - c.1) + (n.2.1 - c.2.1) * (n.2.1 - c.2.1)
    + (n.2.2 - c.2.2) * (n.2.2 - c.2.2) : ℚ))

/-- `MechanicalDog.calculate_energy_consumption(path)` (slow): loops
`i in range(len(path) - 1)`, accumulates `energy = distance * 10` into the
total and appends a `(step index, energy)` record to the log (the Python
log is the string `"Step {i}: {energy} units\n"` per segment; it is
modelled as the pair it prints). The slow variant computes each distance
by summing squared differences over `j in range(3)` before taking `sqrt`. -/
noncomputable def MechanicalDog.calculate_energy_consumption
    (_s : MechanicalDog) (path : List Vec3) : ℝ × List (ℕ × ℝ) :=
  (List.range (path.length - 1)).foldl
    (fun acc i =>
      let c := path.getD i (0, 0, 0)
      let n := path.getD (i + 1) (0, 0, 0)
      let distance : ℝ := Real.sqrt
        (((List.range 3).foldl (fun d j => d + (coord n j - coord c j) ^ 2) 0 : ℚ))
      let energy := distance * 10
      (acc.1 + energy, acc.2 ++ [(i, energy)]))
    (0, [])

/-- `MechanicalDogOptimized.calculate_energy_consumption(path)`: same loop
with the distance computed from `dx, dy, dz` directly; the log parts
`"Step {i}: {energy} units"` are modelled as the pairs they print. -/
noncomputable def MechanicalDogOptimized.calculate_energy_consumption
    (_s : MechanicalDogOptimized) (path : List Vec3) : ℝ × List (ℕ × ℝ) :=
  (List.range (path.length - 1)).foldl
    (fun acc i =>
      let c := path.getD i (0, 0, 0)
      let n := path.getD (i + 1) (0, 0, 0)
      let energy := segLen c n * 10
      (acc.1 + energy, acc.2 ++ [(i, energy)]))
    (0, [])

/-- Spec-side total energy, named from the spec's words for comparison with
the code's accumulator: "for each consecutive waypoint pair
`(path[i], path[i+1])`, compute Euclidean distance and accumulate
`energy_i := distance * 10`" — the sum over the segments of 10 times the
segment's Euclidean length. -/
noncomputable def specTotalEnergy (path : List Vec3) : ℝ :=
  ((List.range (path.length - 1)).map fun i =>
    10 * segLen (path.getD i (0, 0, 0)) (path.getD (i + 1) (0, 0, 0))).sum

/-- Spec-side energy log: the ordered `(index, energy_i)` entries, one per
consecutive-waypoint segment. -/
noncomputable def specEnergyLog (path : List Vec3) : List (ℕ × ℝ) :=
  (List.range (path.length - 1)).map fun i =>
    (i, 10 * segLen (path.getD i (0, 0, 0)) (path.getD (i + 1) (0, 0, 0)))

/-! ## Basic planner lemmas -/

lemma distSq_nonneg (goal current : Vec3) : 0 ≤ distSq goal current := by
  show 0 ≤ (goal.1 - current.1) * (goal.1 - current.1)
      + (goal.2.1 - current.2.1) * (goal.2.1 - current.2.1)
      + (goal.2.2 - current.2.2) * (goal.2.2 - current.2.2)
  have h1 := mul_self_nonneg (goal.1 - current.1)
  have h2 := mul_self_nonneg (goal.2.1 - current.2.1)
  have h3 := mul_self_nonneg (goal.2.2 - current.2.2)
  linarith

/-- Each proportional step scales the displacement to the goal by `99/100`,
hence the squared distance by `9801/10000`. -/
lemma distSq_planStep (goal current : Vec3) :
    distSq goal (planStep goal current) = (9801 / 10000) * distSq goal current := by
  unfold distSq planStep
  ring

lemma planLoopOpt_length_le (goal current : Vec3) (fuel : ℕ) :
    (planLoopOpt goal current fuel).length ≤ fuel := by
  induction fuel generalizing current with
  | zero => simp [planLoopOpt]
  | succ f ih =>
    rw [planLoopOpt]
    split
    · simp
    · simpa using Nat.succ_le_succ (ih _)

/-- If the optimized loop returned fewer waypoints than its fuel, it ended by
the `break`: either the path is empty and the start was already within
tolerance, or the last appended waypoint is within tolerance. -/
lemma planLoopOpt_break (goal current : Vec3) (fuel : ℕ)
    (h : (planLoopOpt goal current fuel).length < fuel) :
    (planLoopOpt goal current fuel = [] ∧
      distSq goal current < (1 / 10) * (1 / 10)) ∨
    (∃ l, (planLoopOpt goal current fuel).getLast? = some l ∧
      distSq goal l < (1 / 10) * (1 / 10)) := by
  induction fuel generalizing current with
  | zero => omega
  | succ f ih =>
    by_cases hc : distSq goal current < (1 / 10) * (1 / 10)
    · left
      exact ⟨by rw [planLoopOpt, if_pos hc], hc⟩
    · have heq : planLoopOpt goal current (f + 1)
          = planStep goal current :: planLoopOpt goal (planStep goal current) f := by
        rw [planLoopOpt, if_neg hc]
      rw [heq] at h ⊢
      rw [List.length_cons] at h
      right
      rcases ih (planStep goal current) (by omega) with ⟨hnil, hlt⟩ | ⟨l, hl, hlt⟩
      · refine ⟨planStep goal current, ?_, hlt⟩
        rw [hnil]
        simp
      · refine ⟨l, ?_, hlt⟩
        rw [List.getLast?_cons, hl]
        simp

/-- Geometric-decay fuel bound: once `(9801/10000)^m` has shrunk the initial
squared distance below the tolerance, the loop appends at most `m` points. -/
lemma planLoopOpt_length_le_of_decay (goal : Vec3) :
    ∀ (m : ℕ) (current : Vec3) (fuel : ℕ),
      (9801 / 10000 : ℚ) ^ m * distSq goal current < (1 / 10) * (1 / 10) →
      (planLoopOpt goal current fuel).length ≤ m := by
  intro m
  induction m with
  | zero =>
    intro current fuel h
    rw [pow_zero, one_mul] at h
    cases fuel with
    | zero => simp [planLoopOpt]
    | succ f => rw [planLoopOpt, if_pos h]; simp
  | succ m ih =>
    intro current fuel h
    cases fuel with
    | zero => simp [planLoopOpt]
    | succ f =>
      by_cases hc : distSq goal current < (1 / 10) * (1 / 10)
      · rw [planLoopOpt, if_pos hc]
        simp
      · have heq : planLoopOpt goal current (f + 1)
            = planStep goal current :: planLoopOpt goal (planStep goal current) f := by
          rw [planLoopOpt, if_neg hc]
        rw [heq, List.length_cons, Nat.succ_le_succ_iff]
        apply ih
        rw [distSq_planStep]
        calc (9801 / 10000 : ℚ) ^ m * (9801 / 10000 * distSq goal current)
            = (9801 / 10000 : ℚ) ^ (m + 1) * distSq goal current := by ring
          _ < (1 / 10) * (1 / 10) := h

/-- The slow loop's `sqrt`-based stopping test agrees with the optimized
squared-distance test, so the two loops coincide exactly. -/
lemma planLoopSlow_eq_planLoopOpt (goal current : Vec3) (fuel : ℕ) :
    planLoopSlow goal current fuel = planLoopOpt goal current fuel := by
  induction fuel generalizing current with
  | zero => rfl
  | succ f ih =>
    rw [planLoopSlow, planLoopOpt]
    have hcond : (Real.sqrt ((distSq goal current : ℚ) : ℝ) < 1 / 10) ↔
        (distSq goal current < (1 / 10) * (1 / 10)) := by
      rw [Real.sqrt_lt' (by norm_num : (0 : ℝ) < 1 / 10)]
      rw [show ((1 : ℝ) / 10) ^ 2 = (((1 / 10 : ℚ) * (1 / 10) : ℚ) : ℝ) by norm_num]
      exact Rat.cast_lt
    by_cases h : distSq goal current < (1 / 10) * (1 / 10)
    · rw [if_pos (hcond.mpr h), if_pos h]
    · rw [if_neg (fun hc => h (hcond.mp hc)), if_neg h]
      show planStep goal current :: planLoopSlow goal (planStep goal current) f
          = planStep goal current :: planLoopOpt goal (planStep goal current) f
      rw [ih]

/-! ## Field-scanner lemmas -/

lemma foldl_flatMap {α β γ : Type} (l : List α) (f : α → List β)
    (g : γ → β → γ) (init : γ) :
    (l.flatMap f).foldl g init
      = l.foldl (fun acc a => (f a).foldl g acc) init := by
  induction l generalizing init with
  | nil => simp
  | cons a t ih => simp [List.flatMap_cons, List.foldl_append, ih]

lemma length_flatMap_const {α : Type} (is : List α) (row : α → List ℚ)
    (L : ℕ) (h : ∀ a ∈ is, (row a).length = L) :
    (is.flatMap row).length = is.length * L := by
  induction is with
  | nil => simp
  | cons a t ih =>
    rw [List.flatMap_cons, List.length_append, h a (by simp),
      ih (fun b hb => h b (by simp [hb])), List.length_cons]
    ring

/-- Sequentially writing the values `vs` starting at index `pre.length`
into the buffer `pre ++ post` overwrites a prefix of `post`. -/
lemma fillSeq (vs : List ℚ) : ∀ pre post : List ℚ, vs.length ≤ post.length →
    vs.foldl (fun (q : List ℚ × ℕ) v => (q.1.set q.2 v, q.2 + 1))
        (pre ++ post, pre.length)
      = (pre ++ vs ++ post.drop vs.length, pre.length + vs.length) := by
  induction vs with
  | nil =>
    intro pre post _
    simp
  | cons v vs ih =>
    intro pre post h
    cases post with
    | nil => simp at h
    | cons p ps =>
      rw [List.foldl_cons]
      have hset : ((pre ++ p :: ps).set pre.length v, pre.length + 1)
          = ((pre ++ [v]) ++ ps, (pre ++ [v]).length) := by
        rw [List.set_append, if_neg (lt_irrefl _), Nat.sub_self]
        simp
      rw [hset, ih (pre ++ [v]) ps (by simpa using h)]
      simp only [Prod.mk.injEq]
      constructor
      · simp [List.append_assoc]
      · simp
        omega

/-- The optimized fill loop over a zeroed buffer of exactly the right size
produces the flat grid of written values. -/
lemma scanFill_replicate (N : ℕ) :
    scanFill N (List.replicate (N * N) (0 : ℚ))
      = (List.range N).flatMap
          (fun (i : ℕ) => (List.range N).map fun (j : ℕ) => (i : ℚ) * (i : ℚ) + (j : ℚ) * (j : ℚ)) := by
  have hlen : ((List.range N).flatMap
      (fun (i : ℕ) => (List.range N).map fun (j : ℕ) => (i : ℚ) * (i : ℚ) + (j : ℚ) * (j : ℚ))).length
      = N * N := by
    rw [length_flatMap_const _ _ N (fun a _ => by simp), List.length_range]
  have hstep : (fun (p : List ℚ × ℕ) (i : ℕ) =>
        ((List.range N).map fun (j : ℕ) => (i : ℚ) * (i : ℚ) + (j : ℚ) * (j : ℚ)).foldl
          (fun (q : List ℚ × ℕ) v => (q.1.set q.2 v, q.2 + 1)) p)
      = (fun (p : List ℚ × ℕ) (i : ℕ) =>
          (List.range N).foldl
            (fun (q : List ℚ × ℕ) (j : ℕ) => (q.1.set q.2 ((i : ℚ) * (i : ℚ) + (j : ℚ) * (j : ℚ)), q.2 + 1))
            p) := by
    funext p i
    rw [List.foldl_map]
  have hfold : scanFill N (List.replicate (N * N) (0 : ℚ))
      = (((List.range N).flatMap
          (fun (i : ℕ) => (List.range N).map fun (j : ℕ) => (i : ℚ) * (i : ℚ) + (j : ℚ) * (j : ℚ))).foldl
            (fun (q : List ℚ × ℕ) v => (q.1.set q.2 v, q.2 + 1))
            (List.replicate (N * N) (0 : ℚ), 0)).1 := by
    rw [foldl_flatMap, hstep]
    rfl
  rw [hfold]
  have hfill := fillSeq ((List.range N).flatMap
      (fun (i : ℕ) => (List.range N).map fun (j : ℕ) => (i : ℚ) * (i : ℚ) + (j : ℚ) * (j : ℚ)))
      [] (List.replicate (N * N) (0 : ℚ)) (by rw [hlen, List.length_replicate])
  simp only [List.nil_append, List.length_nil] at hfill
  rw [hfill, hlen]
  simp

/-- Index formula for the flattened grid: block `k`, offset `j`. -/
lemma getElem?_flatMap_grid {α : Type} (is : List α) (row : α → List ℚ)
    (L : ℕ) (hrow : ∀ a ∈ is, (row a).length = L) (k j : ℕ) (hj : j < L) :
    (is.flatMap row)[k * L + j]? = is[k]?.bind fun a => (row a)[j]? := by
  induction is generalizing k with
  | nil => simp
  | cons a t ih =>
    rw [List.flatMap_cons]
    cases k with
    | zero =>
      simp only [Nat.zero_mul, Nat.zero_add]
      rw [List.getElem?_append_left (by rw [hrow a (by simp)]; omega)]
      simp
    | succ k =>
      have hsplit : (k + 1) * L + j = (k * L + j) + L := by ring
      rw [List.getElem?_append_right (by rw [hrow a (by simp), hsplit]; omega)]
      rw [hrow a (by simp), hsplit, Nat.add_sub_cancel]
      rw [ih (fun b hb => hrow b (by simp [hb])) k]
      simp

lemma scanReadings_length (n : ℤ) :
    (scanReadings n).length = n.toNat * n.toNat := by
  unfold scanReadings
  rw [length_flatMap_const _ _ n.toNat (fun a _ => by simp), List.length_range]

lemma scanReadings_getElem (n : ℤ) (i j : ℕ)
    (hi : i < n.toNat) (hj : j < n.toNat) :
    (scanReadings n)[i * n.toNat + j]? = some ((i : ℚ) ^ 2 + (j : ℚ) ^ 2) := by
  unfold scanReadings
  rw [getElem?_flatMap_grid _ _ n.toNat (fun a _ => by simp) i j hj]
  rw [List.getElem?_range hi]
  rw [Option.some_bind, List.getElem?_map, List.getElem?_range hj]
  rfl

/-- For non-negative `num_samples` the optimized scan returns exactly the
reading list of the slow scan (the pre-allocated buffer is fully
overwritten). -/
lemma scan_environment_opt_readings (s : MechanicalDogOptimized) (n : ℤ)
    (hn : 0 ≤ n) : (s.scan_environment n).2 = scanReadings n := by
  show scanFill n.toNat (List.replicate ((n * n).toNat) (0 : ℚ)) = scanReadings n
  have htot : (n * n).toNat = n.toNat * n.toNat := by
    conv_lhs => rw [← Int.toNat_of_nonneg hn]
    rw [← Nat.cast_mul, Int.toNat_natCast]
  rw [htot, scanFill_replicate]
  unfold scanReadings
  simp [pow_two]

/-- For negative `num_samples` the optimized scan leaves the zeroed buffer
untouched: the loops are empty but the buffer has `n * n > 0` slots. -/
lemma scan_environment_opt_neg (s : MechanicalDogOptimized) (n : ℤ)
    (hn : n < 0) :
    (s.scan_environment n).2 = List.replicate ((n * n).toNat) (0 : ℚ) := by
  show scanFill n.toNat (List.replicate ((n * n).toNat) (0 : ℚ))
      = List.replicate ((n * n).toNat) (0 : ℚ)
  have hN : n.toNat = 0 := Int.toNat_of_nonpos (le_of_lt hn)
  rw [hN]
  unfold scanFill
  simp

/-! ## Motion-history lemmas -/

/-- Run a sequence of `update_position` calls (optimized variant). -/
def runUpdates (s : MechanicalDogOptimized) (dts : List ℚ) :
    MechanicalDogOptimized :=
  dts.foldl MechanicalDogOptimized.update_position s

/-- The position snapshots recorded by a sequence of updates, in order:
entry `k` (0-based) is the position stored by update number `k + 1`. -/
def snapshots (s : MechanicalDogOptimized) : List ℚ → List Vec3
  | [] => []
  | dt :: dts =>
    let s' := s.update_position dt
    s'.position :: snapshots s' dts

lemma snapshots_length (s : MechanicalDogOptimized) (dts : List ℚ) :
    (snapshots s dts).length = dts.length := by
  induction dts generalizing s with
  | nil => rfl
  | cons dt dts ih => simp [snapshots, ih]

lemma update_position_max_history (s : MechanicalDogOptimized) (dt : ℚ) :
    (s.update_position dt).max_history = s.max_history := rfl

/-- The bounded history after a run of updates: the recorded snapshots
appended to the starting history, with the front trimmed to capacity. -/
lemma runUpdates_history (dts : List ℚ) :
    ∀ s : MechanicalDogOptimized,
      s.movement_history.length ≤ s.max_history →
      (runUpdates s dts).movement_history
        = (s.movement_history ++ snapshots s dts).drop
            (s.movement_history.length + dts.length - s.max_history) := by
  induction dts with
  | nil =>
    intro s h
    simp [runUpdates, snapshots, Nat.sub_eq_zero_of_le h]
  | cons dt dts ih =>
    intro s h
    have hrun : runUpdates s (dt :: dts) = runUpdates (s.update_position dt) dts := rfl
    have hsnap : snapshots s (dt :: dts)
        = (s.update_position dt).position :: snapshots (s.update_position dt) dts := rfl
    have hhist : (s.update_position dt).movement_history
        = (s.movement_history ++ [(s.update_position dt).position]).drop
            (s.movement_history.length + 1 - s.max_history) := by
      show (s.movement_history ++ [(s.update_position dt).position]).drop
          ((s.movement_history ++ [(s.update_position dt).position]).length
            - s.max_history)
        = (s.movement_history ++ [(s.update_position dt).position]).drop
            (s.movement_history.length + 1 - s.max_history)
      congr 1
      simp
    have hlen' : (s.update_position dt).movement_history.length
        = s.movement_history.length + 1
          - (s.movement_history.length + 1 - s.max_history) := by
      rw [hhist, List.length_drop]
      congr 1
      simp
    have hle' : (s.update_position dt).movement_history.length
        ≤ (s.update_position dt).max_history := by
      rw [hlen', update_position_max_history]
      omega
    have hIH := ih (s.update_position dt) hle'
    rw [hrun, hIH, hhist, update_position_max_history, hsnap]
    rw [← List.drop_append_of_le_length (by simp)]
    rw [List.drop_drop]
    rw [show s.movement_history ++ (s.update_position dt).position
          :: snapshots (s.update_position dt) dts
        = (s.movement_history ++ [(s.update_position dt).position])
          ++ snapshots (s.update_position dt) dts by simp]
    congr 1
    have hlen'' : ((s.movement_history
        ++ [(s.update_position dt).position]).drop
          (s.movement_history.length + 1 - s.max_history)).length
        = s.movement_history.length + 1
          - (s.movement_history.length + 1 - s.max_history) := by
      rw [List.length_drop]
      congr 1
      simp
    rw [hlen'']
    simp only [List.length_cons]
    omega

/-! ## Obstacle-classifier lemmas -/

lemma findObstaclesOpt_mem (field : List ℚ) :
    ∀ (acc : Finset ℚ) (x : ℚ),
      (x ∈ field.foldl
        (fun obstacles reading =>
          if reading > 1000 then insert reading obstacles else obstacles)
        acc)
      ↔ (x ∈ acc ∨ (x ∈ field ∧ 1000 < x)) := by
  induction field with
  | nil => simp
  | cons r rest ih =>
    intro acc x
    rw [List.foldl_cons]
    by_cases hr : r > 1000
    · rw [if_pos hr, ih]
      constructor
      · rintro (hins | ⟨hx, h1⟩)
        · rcases Finset.mem_insert.mp hins with rfl | hacc
          · exact Or.inr ⟨List.mem_cons_self _ _, hr⟩
          · exact Or.inl hacc
        · exact Or.inr ⟨List.mem_cons_of_mem _ hx, h1⟩
      · rintro (hacc | ⟨hx, h1⟩)
        · exact Or.inl (Finset.mem_insert_of_mem hacc)
        · rcases List.mem_cons.mp hx with rfl | hrest
          · exact Or.inl (Finset.mem_insert_self _ _)
          · exact Or.inr ⟨hrest, h1⟩
    · rw [if_neg hr, ih]
      constructor
      · rintro (hacc | ⟨hx, h1⟩)
        · exact Or.inl hacc
        · exact Or.inr ⟨List.mem_cons_of_mem _ hx, h1⟩
      · rintro (hacc | ⟨hx, h1⟩)
        · exact Or.inl hacc
        · rcases List.mem_cons.mp hx with rfl | hrest
          · exact absurd h1 hr
          · exact Or.inr ⟨hrest, h1⟩

lemma findObstaclesSlow_mem (field : List ℚ) :
    ∀ (acc : List ℚ) (x : ℚ),
      (x ∈ field.foldl
        (fun obstacles reading =>
          if reading > 1000 then
            if reading ∉ obstacles then obstacles ++ [reading] else obstacles
          else obstacles)
        acc)
      ↔ (x ∈ acc ∨ (x ∈ field ∧ 1000 < x)) := by
  induction field with
  | nil => simp
  | cons r rest ih =>
    intro acc x
    rw [List.foldl_cons]
    by_cases hr : r > 1000
    · rw [if_pos hr]
      by_cases hmem : r ∈ acc
      · rw [if_neg (by simpa using hmem), ih]
        constructor
        · rintro (hacc | ⟨hx, h1⟩)
          · exact Or.inl hacc
          · exact Or.inr ⟨List.mem_cons_of_mem _ hx, h1⟩
        · rintro (hacc | ⟨hx, h1⟩)
          · exact Or.inl hacc
          · rcases List.mem_cons.mp hx with rfl | hrest
            · exact Or.inl hmem
            · exact Or.inr ⟨hrest, h1⟩
      · rw [if_pos (by simpa using hmem), ih]
        constructor
        · rintro (hacc | ⟨hx, h1⟩)
          · rcases List.mem_append.mp hacc with hacc | hsing
            · exact Or.inl hacc
            · rcases List.mem_singleton.mp hsing with rfl
              exact Or.inr ⟨List.mem_cons_self _ _, hr⟩
          · exact Or.inr ⟨List.mem_cons_of_mem _ hx, h1⟩
        · rintro (hacc | ⟨hx, h1⟩)
          · exact Or.inl (List.mem_append.mpr (Or.inl hacc))
          · rcases List.mem_cons.mp hx with rfl | hrest
            · exact Or.inl (List.mem_append.mpr (Or.inr (List.mem_singleton.mpr rfl)))
            · exact Or.inr ⟨hrest, h1⟩
    · rw [if_neg hr, ih]
      constructor
      · rintro (hacc | ⟨hx, h1⟩)
        · exact Or.inl hacc
        · exact Or.inr ⟨List.mem_cons_of_mem _ hx, h1⟩
      · rintro (hacc | ⟨hx, h1⟩)
        · exact Or.inl hacc
        · rcases List.mem_cons.mp hx with rfl | hrest
          · exact absurd h1 hr
          · exact Or.inr ⟨hrest, h1⟩

lemma findObstaclesSlow_nodup (field : List ℚ) :
    ∀ acc : List ℚ, acc.Nodup →
      (field.foldl
        (fun obstacles reading =>
          if reading > 1000 then
            if reading ∉ obstacles then obstacles ++ [reading] else obstacles
          else obstacles)
        acc).Nodup := by
  induction field with
  | nil => intro acc h; simpa using h
  | cons r rest ih =>
    intro acc h
    rw [List.foldl_cons]
    by_cases hr : r > 1000
    · rw [if_pos hr]
      by_cases hmem : r ∈ acc
      · rw [if_neg (by simpa using hmem)]
        exact ih acc h
      · rw [if_pos (by simpa using hmem)]
        exact ih _ (by simp [List.nodup_append, h, hmem])
    · rw [if_neg hr]
      exact ih acc h

/-- At the default threshold 1000 the optimized classifier coincides with
the spec-side classifier. -/
lemma find_obstacles_opt_eq_spec (sO : MechanicalDogOptimized)
    (field : List ℚ) :
    sO.find_obstacles field = findObstaclesSpec field 1000 := by
  ext x
  unfold findObstaclesSpec
  rw [List.mem_toFinset, List.mem_filter]
  constructor
  · intro hx
    rcases (findObstaclesOpt_mem field ∅ x).mp hx with h0 | ⟨hf, hgt⟩
    · exact absurd h0 (Finset.not_mem_empty x)
    · exact ⟨hf, by simpa using hgt⟩
  · rintro ⟨hf, hgt⟩
    exact (findObstaclesOpt_mem field ∅ x).mpr (Or.inr ⟨hf, by simpa using hgt⟩)

/-- At the default threshold 1000 the slow classifier's duplicate-free list
also coincides, as a set, with the spec-side classifier. -/
lemma find_obstacles_slow_eq_spec (sS : MechanicalDog) (field : List ℚ) :
    (sS.find_obstacles field).toFinset = findObstaclesSpec field 1000 := by
  ext x
  unfold findObstaclesSpec
  rw [List.mem_toFinset, List.mem_toFinset, List.mem_filter]
  constructor
  · intro hx
    rcases (findObstaclesSlow_mem field [] x).mp hx with h0 | ⟨hf, hgt⟩
    · exact absurd h0 (List.not_mem_nil x)
    · exact ⟨hf, by simpa using hgt⟩
  · rintro ⟨hf, hgt⟩
    exact (findObstaclesSlow_mem field [] x).mpr (Or.inr ⟨hf, by simpa using hgt⟩)

/-! ## Energy-estimator lemmas -/

/-- Closed form of the energy-accumulation loop shared by both variants:
total is the sum of the per-segment energies, the log lists them in index
order. -/
lemma energy_foldl (g : ℕ → ℝ) :
    ∀ (k : ℕ) (a : ℝ) (l : List (ℕ × ℝ)),
      (List.range k).foldl
          (fun (acc : ℝ × List (ℕ × ℝ)) i => (acc.1 + g i, acc.2 ++ [(i, g i)]))
          (a, l)
        = (a + ((List.range k).map g).sum,
           l ++ (List.range k).map fun i => (i, g i)) := by
  intro k
  induction k with
  | zero => intro a l; simp
  | succ k ih =>
    intro a l
    rw [List.range_succ, List.foldl_append, ih]
    simp only [List.foldl_cons, List.foldl_nil, List.map_append, List.sum_append,
      List.map_cons, List.map_nil, List.sum_cons, List.sum_nil]
    rw [List.append_assoc]
    simp [add_assoc]

/-- The optimized energy estimator in closed form. -/
lemma calc_energy_opt_eq (s : MechanicalDogOptimized) (path : List Vec3) :
    s.calculate_energy_consumption path
      = (((List.range (path.length - 1)).map fun i =>
            segLen (path.getD i (0, 0, 0)) (path.getD (i + 1) (0, 0, 0)) * 10).sum,
         (List.range (path.length - 1)).map fun i =>
           (i, segLen (path.getD i (0, 0, 0)) (path.getD (i + 1) (0, 0, 0)) * 10)) := by
  have h := energy_foldl
    (fun i => segLen (path.getD i (0, 0, 0)) (path.getD (i + 1) (0, 0, 0)) * 10)
    (path.length - 1) 0 []
  simp only [zero_add, List.nil_append] at h
  exact h

/-- The slow inner distance loop over `range 3` equals the direct
three-component distance. -/
lemma slowDist_eq_segLen (c n : Vec3) :
    Real.sqrt (((List.range 3).foldl
        (fun d j => d + (coord n j - coord c j) ^ 2) (0 : ℚ) : ℚ))
      = segLen c n := by
  have h3 : (List.range 3) = [0, 1, 2] := rfl
  have harg : ((List.range 3).foldl
      (fun d j => d + (coord n j - coord c j) ^ 2) (0 : ℚ))
      = (n.1 - c.1) * (n.1 - c.1) + (n.2.1 - c.2.1) * (n.2.1 - c.2.1)
        + (n.2.2 - c.2.2) * (n.2.2 - c.2.2) := by
    rw [h3]
    simp only [List.foldl_cons, List.foldl_nil, coord]
    ring
  rw [harg]
  rfl

/-- The slow energy estimator agrees with the optimized one exactly. -/
lemma calc_energy_slow_eq_opt (sS : MechanicalDog) (sO : MechanicalDogOptimized)
    (path : List Vec3) :
    sS.calculate_energy_consumption path = sO.calculate_energy_consumption path := by
  have hstep : (fun (acc : ℝ × List (ℕ × ℝ)) i =>
        (acc.1 + Real.sqrt (((List.range 3).foldl
            (fun d j => d + (coord (path.getD (i + 1) (0, 0, 0)) j
              - coord (path.getD i (0, 0, 0)) j) ^ 2) (0 : ℚ) : ℚ)) * 10,
         acc.2 ++ [(i, Real.sqrt (((List.range 3).foldl
            (fun d j => d + (coord (path.getD (i + 1) (0, 0, 0)) j
              - coord (path.getD i (0, 0, 0)) j) ^ 2) (0 : ℚ) : ℚ)) * 10)]))
      = (fun (acc : ℝ × List (ℕ × ℝ)) i =>
          (acc.1 + segLen (path.getD i (0, 0, 0)) (path.getD (i + 1) (0, 0, 0)) * 10,
           acc.2 ++ [(i, segLen (path.getD i (0, 0, 0)) (path.getD (i + 1) (0, 0, 0)) * 10)])) := by
    funext acc i
    rw [slowDist_eq_segLen]
  show (List.range (path.length - 1)).foldl
      (fun (acc : ℝ × List (ℕ × ℝ)) i =>
        (acc.1 + Real.sqrt (((List.range 3).foldl
            (fun d j => d + (coord (path.getD (i + 1) (0, 0, 0)) j
              - coord (path.getD i (0, 0, 0)) j) ^ 2) (0 : ℚ) : ℚ)) * 10,
         acc.2 ++ [(i, Real.sqrt (((List.range 3).foldl
            (fun d j => d + (coord (path.getD (i + 1) (0, 0, 0)) j
              - coord (path.getD i (0, 0, 0)) j) ^ 2) (0 : ℚ) : ℚ)) * 10)]))
      (0, [])
    = (List.range (path.length - 1)).foldl
      (fun (acc : ℝ × List (ℕ × ℝ)) i =>
        (acc.1 + segLen (path.getD i (0, 0, 0)) (path.getD (i + 1) (0, 0, 0)) * 10,
         acc.2 ++ [(i, segLen (path.getD i (0, 0, 0)) (path.getD (i + 1) (0, 0, 0)) * 10)]))
      (0, [])
  rw [hstep]

/-! ## Limb-distance lemmas -/

/-- Python indexing yields `IndexError` (`none`) exactly outside
`[-len, len)`. -/
lemma pyIndex_eq_none_iff {α : Type} (l : List α) (i : ℤ) :
    pyIndex l i = none ↔ (i < -(l.length : ℤ) ∨ (l.length : ℤ) ≤ i) := by
  unfold pyIndex
  by_cases hneg : i < 0
  · rw [if_pos hneg]
    by_cases hj : 0 ≤ i + (l.length : ℤ)
    · rw [if_pos hj]
      rw [List.get?_eq_none]
      constructor
      · intro hlen
        have : (l.length : ℤ) ≤ i + l.length := by
          calc (l.length : ℤ) ≤ ((i + (l.length : ℤ)).toNat : ℤ) := by exact_mod_cast hlen
            _ = i + l.length := Int.toNat_of_nonneg hj
        omega
      · intro hcase
        rcases hcase with hlt | hge
        · omega
        · omega
    · rw [if_neg hj]
      constructor
      · intro _
        left
        omega
      · intro _
        rfl
  · rw [if_neg hneg, if_pos (by omega : (0 : ℤ) ≤ i)]
    rw [List.get?_eq_none]
    constructor
    · intro hlen
      right
      calc (l.length : ℤ) ≤ (i.toNat : ℤ) := by exact_mod_cast hlen
        _ = i := Int.toNat_of_nonneg (by omega)
    · intro hcase
      rcases hcase with hlt | hge
      · omega
      · have : l.length ≤ i.toNat := by omega
        exact this
  
/-- Python indexing at a plain non-negative index. -/
lemma pyIndex_ofNat {α : Type} (l : List α) (i : ℤ) (h0 : 0 ≤ i) :
    pyIndex l i = l.get? i.toNat := by
  unfold pyIndex
  rw [if_neg (not_lt.mpr h0), if_pos h0]

/-- Both variants compute the same limb distance (the string round-trip of
the slow variant is value-preserving). -/
lemma kinematics_slow_eq_opt (sS : MechanicalDog) (sO : MechanicalDogOptimized)
    (h : sS.leg_positions = sO.leg_positions) (i : ℤ) (t : Vec3) :
    sS.calculate_leg_kinematics i t = sO.calculate_leg_kinematics i t := by
  unfold MechanicalDog.calculate_leg_kinematics
    MechanicalDogOptimized.calculate_leg_kinematics
  rw [h]
  cases hp : pyIndex sO.leg_positions i with
  | none => rfl
  | some leg =>
    simp only [Option.map_some']
    congr 1
    show Real.sqrt (((((List.range 3).map fun k => coord t k - coord leg k).map
        fun d => d ^ 2).sum : ℚ) : ℝ)
      = Real.sqrt (((t.1 - leg.1) * (t.1 - leg.1)
          + (t.2.1 - leg.2.1) * (t.2.1 - leg.2.1)
          + (t.2.2 - leg.2.2) * (t.2.2 - leg.2.2) : ℚ))
    congr 1
    have hsum : ((((List.range 3).map fun k => coord t k - coord leg k).map
        fun d => d ^ 2).sum : ℚ)
        = ((t.1 - leg.1) * (t.1 - leg.1)
            + (t.2.1 - leg.2.1) * (t.2.1 - leg.2.1)
            + (t.2.2 - leg.2.2) * (t.2.2 - leg.2.2) : ℚ) := by
      have h3 : (List.range 3) = [0, 1, 2] := rfl
      rw [h3]
      simp only [List.map_cons, List.map_nil, List.sum_cons, List.sum_nil, coord]
      ring
    exact_mod_cast hsum

/-! ## Claim theorems -/

/-- C7: one `update_position(deltaTime)` call — any `deltaTime`, negative
included — sets the position exactly to `p0 + v*deltaTime` componentwise
(exact, hence within `1e-9`), and leaves velocity, limb positions, the
sensor field (and the name, and the optimized capacity) unchanged, in both
variants: besides position, only the history changes. -/
theorem C7_update_position_frame (sS : MechanicalDog)
    (sO : MechanicalDogOptimized) (dt : ℚ) :
    ((sS.update_position dt).position
        = (sS.position.1 + sS.velocity.1 * dt,
           sS.position.2.1 + sS.velocity.2.1 * dt,
           sS.position.2.2 + sS.velocity.2.2 * dt)
      ∧ (sS.update_position dt).velocity = sS.velocity
      ∧ (sS.update_position dt).leg_positions = sS.leg_positions
      ∧ (sS.update_position dt).sensor_data = sS.sensor_data
      ∧ (sS.update_position dt).name = sS.name)
    ∧ ((sO.update_position dt).position
        = (sO.position.1 + sO.velocity.1 * dt,
           sO.position.2.1 + sO.velocity.2.1 * dt,
           sO.position.2.2 + sO.velocity.2.2 * dt)
      ∧ (sO.update_position dt).velocity = sO.velocity
      ∧ (sO.update_position dt).leg_positions = sO.leg_positions
      ∧ (sO.update_position dt).sensor_data = sO.sensor_data
      ∧ (sO.update_position dt).max_history = sO.max_history
      ∧ (sO.update_position dt).name = sO.name) :=
  ⟨⟨rfl, rfl, rfl, rfl, rfl⟩, ⟨rfl, rfl, rfl, rfl, rfl, rfl⟩⟩

/-- C8: `plan_path` never consults its obstacles argument — for any two
obstacle collections, of any two types, the returned path is identical, in
both variants. -/
theorem C8_plan_path_ignores_obstacles (sS : MechanicalDog)
    (sO : MechanicalDogOptimized) (start goal : Vec3) {α β : Type}
    (o1 : α) (o2 : β) :
    sS.plan_path start goal o1 = sS.plan_path start goal o2
    ∧ sO.plan_path start goal o1 = sO.plan_path start goal o2 :=
  ⟨rfl, rfl⟩

/-- C4 counterexample: `find_obstacles` accepts no threshold parameter —
in both sources `threshold = 1000` is a hard-coded local constant — so the
code cannot realize the claimed `findObstacles(field, threshold)` contract
at any non-default threshold: at `field = [500]`, `threshold = 400` the
contract demands the set `{500}`, but the (only) result of both variants is
empty. -/
theorem C4_counterexample :
    (MechanicalDog.mk0 "Spot").find_obstacles [500] = []
    ∧ (MechanicalDogOptimized.mk0 "Spot").find_obstacles [500] = ∅
    ∧ findObstaclesSpec [500] 400 = ({500} : Finset ℚ)
    ∧ (MechanicalDogOptimized.mk0 "Spot").find_obstacles [500]
        ≠ findObstaclesSpec [500] 400 := by
  refine ⟨rfl, rfl, by decide, ?_⟩
  show List.foldl
      (fun obstacles reading =>
        if reading > 1000 then insert reading obstacles else obstacles)
      ∅ [500] ≠ findObstaclesSpec [500] 400
  decide

/-- C4 (amended): `find_obstacles(field)` produces the set of distinct
field values strictly greater than 1000, where 1000 is a hard-coded
constant rather than an accepted parameter: the code realizes the spec's
`findObstacles(field, threshold)` contract exactly at the default
`threshold = 1000` (both variants coincide with the spec-side classifier
there), duplicate qualifying values collapse (the slow list is
duplicate-free), values equal to the threshold are excluded, the empty
input yields the empty set, and the two worked examples hold. The state and
the field are read only. -/
theorem C4_find_obstacles_spec (sS : MechanicalDog)
    (sO : MechanicalDogOptimized) :
    (∀ (field : List ℚ) (x : ℚ),
        x ∈ sO.find_obstacles field ↔ x ∈ field ∧ 1000 < x)
    ∧ (∀ (field : List ℚ) (x : ℚ),
        x ∈ sS.find_obstacles field ↔ x ∈ field ∧ 1000 < x)
    ∧ (∀ field : List ℚ, (sS.find_obstacles field).Nodup)
    ∧ (∀ field : List ℚ, sO.find_obstacles field = findObstaclesSpec field 1000)
    ∧ (∀ field : List ℚ,
        (sS.find_obstacles field).toFinset = findObstaclesSpec field 1000)
    ∧ sO.find_obstacles [] = ∅
    ∧ sO.find_obstacles [500, 1200, 800, 1500, 900, 2000]
        = ({1200, 1500, 2000} : Finset ℚ)
    ∧ sO.find_obstacles [1500, 1500] = ({1500} : Finset ℚ) := by
  refine ⟨?_, ?_, ?_, find_obstacles_opt_eq_spec sO,
    find_obstacles_slow_eq_spec sS, rfl, ?_, ?_⟩
  · intro field x
    constructor
    · intro hx
      rcases (findObstaclesOpt_mem field ∅ x).mp hx with h0 | h1
      · exact absurd h0 (Finset.not_mem_empty x)
      · exact h1
    · intro hx
      exact (findObstaclesOpt_mem field ∅ x).mpr (Or.inr hx)
  · intro field x
    constructor
    · intro hx
      rcases (findObstaclesSlow_mem field [] x).mp hx with h0 | h1
      · exact absurd h0 (List.not_mem_nil x)
      · exact h1
    · intro hx
      exact (findObstaclesSlow_mem field [] x).mpr (Or.inr hx)
  · intro field
    exact findObstaclesSlow_nodup field [] List.nodup_nil
  · show List.foldl
        (fun obstacles reading =>
          if reading > 1000 then insert reading obstacles else obstacles)
        ∅ [500, 1200, 800, 1500, 900, 2000] = ({1200, 1500, 2000} : Finset ℚ)
    decide
  · show List.foldl
        (fun obstacles reading =>
          if reading > 1000 then insert reading obstacles else obstacles)
        ∅ [1500, 1500] = ({1500} : Finset ℚ)
    decide

/-- C10: for every negative `numSamples` the optimized scan raises no
error: it returns — and stores wholesale into the sensor field — a
sequence of exactly `n²` readings, all `0.0`. -/
theorem C10_scan_negative_zeros (s : MechanicalDogOptimized) (n : ℤ)
    (hn : n < 0) :
    ((s.scan_environment n).2 = List.replicate ((n * n).toNat) (0 : ℚ))
    ∧ (((s.scan_environment n).2.length : ℤ) = n * n)
    ∧ ((s.scan_environment n).1.sensor_data = (s.scan_environment n).2) := by
  refine ⟨scan_environment_opt_neg s n hn, ?_, rfl⟩
  rw [scan_environment_opt_neg s n hn, List.length_replicate]
  exact Int.toNat_of_nonneg (mul_self_nonneg n)

/-- Witness for C10 at `numSamples = -2`: four zero readings. -/
theorem C10_witness :
    ((MechanicalDogOptimized.mk0 "Spot").scan_environment (-2)).2
      = [0, 0, 0, 0] := by
  have h := (C10_scan_negative_zeros (MechanicalDogOptimized.mk0 "Spot") (-2)
    (by decide)).1
  rw [h]
  rfl

/-- C1 counterexample: in the slow variant a second scan with the same
`numSamples` grows `sensorField` — the readings are appended
(`sensor_data.extend`), not assigned — so after two `scan_environment 1`
calls the field holds 2 entries, not `1² = 1`. -/
theorem C1_counterexample :
    ((((MechanicalDog.mk0 "Spot").scan_environment 1).1.scan_environment
        1).1.sensor_data.length = 2)
    ∧ (2 : ℕ) ≠ 1 * 1 := by
  constructor
  · rfl
  · decide

/-- C1 (amended): for every `numSamples = n ≥ 0` both variants return the
same flat sequence of exactly `n²` readings whose entry at flattened index
`i*n + j` equals `i² + j²` (with `n = 0` giving the empty field, not an
error); the *optimized* variant replaces `sensorField` wholesale with the
returned sequence (repeated scans keep length `n²`), while the *slow*
variant appends the sequence to the existing `sensorField`, growing it. -/
theorem C1_scan_field (n : ℤ) (hn : 0 ≤ n) (sS : MechanicalDog)
    (sO : MechanicalDogOptimized) :
    (((sO.scan_environment n).2.length : ℤ) = n * n)
    ∧ ((sS.scan_environment n).2 = (sO.scan_environment n).2)
    ∧ (∀ i j : ℕ, i < n.toNat → j < n.toNat →
        (sO.scan_environment n).2[i * n.toNat + j]?
          = some ((i : ℚ) ^ 2 + (j : ℚ) ^ 2))
    ∧ ((sO.scan_environment n).1.sensor_data = (sO.scan_environment n).2)
    ∧ ((sS.scan_environment n).1.sensor_data
        = sS.sensor_data ++ (sS.scan_environment n).2) := by
  have hopt := scan_environment_opt_readings sO n hn
  have hslow : (sS.scan_environment n).2 = scanReadings n := rfl
  refine ⟨?_, by rw [hslow, hopt], ?_, rfl, rfl⟩
  · rw [hopt, scanReadings_length]
    push_cast
    rw [Int.toNat_of_nonneg hn]
  · intro i j hi hj
    rw [hopt]
    exact scanReadings_getElem n i j hi hj

/-- Witness for C1 at `numSamples = 3`: nine readings, and the entry at
flattened index `1*3 + 2` is `1² + 2² = 5`. -/
theorem C1_witness :
    ((MechanicalDog.mk0 "Spot").scan_environment 3).2
        = ((MechanicalDogOptimized.mk0 "Spot").scan_environment 3).2
    ∧ ((((MechanicalDogOptimized.mk0 "Spot").scan_environment 3).2.length : ℤ)
        = 9)
    ∧ ((MechanicalDogOptimized.mk0 "Spot").scan_environment 3).2[1 * 3 + 2]?
        = some 5 := by
  have h := C1_scan_field 3 (by decide) (MechanicalDog.mk0 "Spot")
    (MechanicalDogOptimized.mk0 "Spot")
  refine ⟨h.2.1, h.1.trans (by norm_num), ?_⟩
  have h5 := h.2.2.1 1 2 (by decide) (by decide)
  norm_num at h5 ⊢
  exact h5

/-- The length of a bounded-deque append: one more than before, trimmed to
the capacity. -/
lemma dequeAppend_length (m : ℕ) (h : List Vec3) (v : Vec3) :
    (dequeAppend m h v).length = h.length + 1 - (h.length + 1 - m) := by
  show ((h ++ [v]).drop ((h ++ [v]).length - m)).length
      = h.length + 1 - (h.length + 1 - m)
  rw [List.length_drop]
  congr 1 <;> simp

/-- C3: starting from a fresh agent with history capacity `M`, after the
update sequence `dts` the history length is `min dts.length M`; the
retained entries are exactly the trailing `min dts.length M` snapshots
(eviction is oldest-first FIFO), so when `M ≤ N := dts.length` the oldest
retained entry is the snapshot of update number `N - M + 1` (0-based index
`N - M`; for `N = 1000`, `M = 100` that is update #901); one update
preserves `history.length ≤ maxHistory`, and scanning leaves the history
untouched. -/
theorem C3_history_invariant (name : String) (M : ℕ) (dts : List ℚ) :
    ((runUpdates (MechanicalDogOptimized.mk0 name M) dts).movement_history
        = (snapshots (MechanicalDogOptimized.mk0 name M) dts).drop
            (dts.length - M))
    ∧ ((runUpdates (MechanicalDogOptimized.mk0 name M) dts).movement_history.length
        = min dts.length M)
    ∧ (M ≤ dts.length →
        (runUpdates (MechanicalDogOptimized.mk0 name M) dts).movement_history.head?
          = (snapshots (MechanicalDogOptimized.mk0 name M) dts)[dts.length - M]?)
    ∧ (∀ (s : MechanicalDogOptimized) (dt : ℚ),
        s.movement_history.length ≤ s.max_history →
        (s.update_position dt).movement_history.length ≤ s.max_history)
    ∧ (∀ (s : MechanicalDogOptimized) (n : ℤ),
        (s.scan_environment n).1.movement_history = s.movement_history) := by
  have hbase : (MechanicalDogOptimized.mk0 name M).movement_history.length
      ≤ (MechanicalDogOptimized.mk0 name M).max_history := by
    simp [MechanicalDogOptimized.mk0]
  have hrun := runUpdates_history dts (MechanicalDogOptimized.mk0 name M) hbase
  have hhist : (runUpdates (MechanicalDogOptimized.mk0 name M) dts).movement_history
      = (snapshots (MechanicalDogOptimized.mk0 name M) dts).drop
          (dts.length - M) := by
    rw [hrun]
    have h0 : (MechanicalDogOptimized.mk0 name M).movement_history = [] := rfl
    have hM : (MechanicalDogOptimized.mk0 name M).max_history = M := rfl
    rw [h0, hM, List.nil_append, List.length_nil, Nat.zero_add]
  refine ⟨hhist, ?_, ?_, ?_, fun s n => rfl⟩
  · rw [hhist, List.length_drop, snapshots_length]
    omega
  · intro _
    rw [hhist, List.head?_drop]
  · intro s dt h
    show (dequeAppend s.max_history s.movement_history _).length ≤ s.max_history
    rw [dequeAppend_length]
    omega

/-- Witness for C3: capacity 2, three updates — history keeps the last two
snapshots and the oldest retained one is snapshot number 2 (index 1). -/
theorem C3_witness :
    (runUpdates (MechanicalDogOptimized.mk0 "Spot" 2)
        [1, 1, 1]).movement_history.length = min 3 2
    ∧ (runUpdates (MechanicalDogOptimized.mk0 "Spot" 2)
        [1, 1, 1]).movement_history.head?
        = (snapshots (MechanicalDogOptimized.mk0 "Spot" 2) [1, 1, 1])[3 - 2]? := by
  have h := C3_history_invariant "Spot" 2 [1, 1, 1]
  exact ⟨h.2.1, h.2.2.1 (by decide)⟩

/-- C6 counterexample: `limbIndex = -1` lies outside `[0, 4)`, yet the call
does not fail — Python's negative indexing reads the last limb instead of
raising `IndexError`. -/
theorem C6_counterexample :
    ¬ ((MechanicalDog.mk0 "Spot").calculate_leg_kinematics (-1) (0, 0, 0)
        = none) := by
  have hp : pyIndex (MechanicalDog.mk0 "Spot").leg_positions (-1)
      = some (0, 0, 0) := by decide
  unfold MechanicalDog.calculate_leg_kinematics
  rw [hp]
  simp

/-- C6 (amended): on a state whose limb array has its invariant length 4,
`limbDistance` fails with `IndexError` exactly when the limb index is
outside `[-4, 4)` — Python indexing accepts negative indices counting from
the end — and for an index in `[0, 4)` it returns the Euclidean distance
`sqrt(dx² + dy² + dz²)` between that limb and the target; both variants
agree, and the computation is a pure function of the state (no mutation). -/
theorem C6_limb_distance (sS : MechanicalDog) (sO : MechanicalDogOptimized)
    (hS : sS.leg_positions.length = 4) (hO : sO.leg_positions.length = 4)
    (i : ℤ) (t : Vec3) :
    (sS.calculate_leg_kinematics i t = none ↔ (i < -4 ∨ 4 ≤ i))
    ∧ (sO.calculate_leg_kinematics i t = none ↔ (i < -4 ∨ 4 ≤ i))
    ∧ (∀ leg : Vec3, 0 ≤ i →
        sO.leg_positions.get? i.toNat = some leg →
        sO.calculate_leg_kinematics i t
          = some (Real.sqrt (((t.1 - leg.1) * (t.1 - leg.1)
              + (t.2.1 - leg.2.1) * (t.2.1 - leg.2.1)
              + (t.2.2 - leg.2.2) * (t.2.2 - leg.2.2) : ℚ)))) := by
  refine ⟨?_, ?_, ?_⟩
  · unfold MechanicalDog.calculate_leg_kinematics
    rw [Option.map_eq_none', pyIndex_eq_none_iff, hS]
    norm_num
  · unfold MechanicalDogOptimized.calculate_leg_kinematics
    rw [Option.map_eq_none', pyIndex_eq_none_iff, hO]
    norm_num
  · intro leg h0 hleg
    unfold MechanicalDogOptimized.calculate_leg_kinematics
    rw [pyIndex_ofNat _ i h0, hleg]
    rfl

/-- Witness for C6: limb 0 of a fresh agent is at the origin, so the
distance to target `(1, 2, 2)` is `sqrt 9 = 3`. -/
theorem C6_witness :
    (MechanicalDogOptimized.mk0 "Spot").calculate_leg_kinematics 0 (1, 2, 2)
      = some 3 := by
  have h := (C6_limb_distance (MechanicalDog.mk0 "Spot")
    (MechanicalDogOptimized.mk0 "Spot") (by decide) (by decide) 0
    (1, 2, 2)).2.2 (0, 0, 0) (by decide) (by decide)
  rw [h]
  congr 1
  rw [show (((1 : ℚ) - 0) * ((1 : ℚ) - 0) + ((2 : ℚ) - 0) * ((2 : ℚ) - 0)
      + ((2 : ℚ) - 0) * ((2 : ℚ) - 0) : ℚ) = 9 by norm_num]
  rw [show (((9 : ℚ) : ℝ)) = (3 : ℝ) ^ 2 by norm_num]
  exact Real.sqrt_sq (by norm_num)

/-- C2: `planPath([0,0,0], [10,10,0], obstacles)` converges for either
variant and any obstacle argument: the path has at most 1000 waypoints
(in fact the loop breaks after 493) and the final appended waypoint lies
within squared distance `0.01` of the goal; and whenever the start is
already within squared distance `0.01` of the goal — in particular when
start = goal — the returned path is empty, with no error. -/
theorem C2_plan_path_converges :
    (∀ (obstacles : List ℚ) (sS : MechanicalDog) (sO : MechanicalDogOptimized),
      (sO.plan_path (0, 0, 0) (10, 10, 0) obstacles).length ≤ 1000
      ∧ sS.plan_path (0, 0, 0) (10, 10, 0) obstacles
          = sO.plan_path (0, 0, 0) (10, 10, 0) obstacles
      ∧ ∃ l, (sO.plan_path (0, 0, 0) (10, 10, 0) obstacles).getLast? = some l
          ∧ distSq (10, 10, 0) l < 1 / 100)
    ∧ (∀ (obstacles : List ℚ) (sS : MechanicalDog) (sO : MechanicalDogOptimized)
        (start goal : Vec3), distSq goal start < 1 / 100 →
        sS.plan_path start goal obstacles = []
        ∧ sO.plan_path start goal obstacles = []) := by
  have htol : ((1 : ℚ) / 10) * (1 / 10) = 1 / 100 := by norm_num
  constructor
  · intro obstacles sS sO
    have hd : distSq ((10 : ℚ), (10 : ℚ), (0 : ℚ)) ((0 : ℚ), (0 : ℚ), (0 : ℚ))
        = 200 := by norm_num [distSq]
    have hdecay : (9801 / 10000 : ℚ) ^ 493
        * distSq ((10 : ℚ), (10 : ℚ), (0 : ℚ)) ((0 : ℚ), (0 : ℚ), (0 : ℚ))
        < (1 / 10) * (1 / 10) := by
      rw [hd]
      norm_num
    have hlen : (planLoopOpt (10, 10, 0) (0, 0, 0) 1000).length ≤ 493 :=
      planLoopOpt_length_le_of_decay (10, 10, 0) 493 (0, 0, 0) 1000 hdecay
    have hbreak := planLoopOpt_break (10, 10, 0) (0, 0, 0) 1000 (by omega)
    refine ⟨le_trans (planLoopOpt_length_le _ _ _) (le_refl 1000), ?_, ?_⟩
    · show planLoopSlow (10, 10, 0) (0, 0, 0) 1000
          = planLoopOpt (10, 10, 0) (0, 0, 0) 1000
      exact planLoopSlow_eq_planLoopOpt _ _ _
    · rcases hbreak with ⟨_, hlt⟩ | ⟨l, hl, hlt⟩
      · rw [hd] at hlt
        norm_num at hlt
      · exact ⟨l, hl, by rw [htol] at hlt; exact hlt⟩
  · intro obstacles sS sO start goal h
    have hcond : distSq goal start < (1 / 10) * (1 / 10) := by
      rw [htol]
      exact h
    have hopt : sO.plan_path start goal obstacles = [] := by
      show planLoopOpt goal start 1000 = []
      rw [show (1000 : ℕ) = 999 + 1 from rfl, planLoopOpt, if_pos hcond]
    refine ⟨?_, hopt⟩
    show planLoopSlow goal start 1000 = []
    rw [planLoopSlow_eq_planLoopOpt]
    exact hopt

/-- Witness for C2: start already at the goal gives an empty path. -/
theorem C2_witness :
    (MechanicalDog.mk0 "Spot").plan_path ((0 : ℚ), (0 : ℚ), (0 : ℚ))
        (0, 0, 0) ([] : List ℚ) = []
    ∧ (MechanicalDogOptimized.mk0 "Spot").plan_path ((0 : ℚ), (0 : ℚ), (0 : ℚ))
        (0, 0, 0) ([] : List ℚ) = [] :=
  C2_plan_path_converges.2 [] (MechanicalDog.mk0 "Spot")
    (MechanicalDogOptimized.mk0 "Spot") (0, 0, 0) (0, 0, 0)
    (by norm_num [distSq])

/-- C5: `calculateEnergy` returns the sum over consecutive waypoint pairs
of 10 times their Euclidean distance, with an ordered `(index, energy)`
log, one entry per segment; a path with at most one waypoint yields
`(0, empty log)`; the four-point unit-step path costs exactly `30.0` with a
3-entry log; the slow variant returns the same value, and the path is only
read (the embedding is a pure function). -/
theorem C5_energy_spec (sS : MechanicalDog) (sO : MechanicalDogOptimized) :
    (∀ path : List Vec3,
        (sO.calculate_energy_consumption path).1 = specTotalEnergy path
        ∧ (sO.calculate_energy_consumption path).2 = specEnergyLog path
        ∧ sS.calculate_energy_consumption path
            = sO.calculate_energy_consumption path)
    ∧ (∀ path : List Vec3, path.length ≤ 1 →
        sO.calculate_energy_consumption path = (0, []))
    ∧ ((sO.calculate_energy_consumption
          [((0 : ℚ), (0 : ℚ), (0 : ℚ)), (1, 0, 0), (2, 0, 0), (3, 0, 0)]).1
        = 30)
    ∧ ((sO.calculate_energy_consumption
          [((0 : ℚ), (0 : ℚ), (0 : ℚ)), (1, 0, 0), (2, 0, 0), (3, 0, 0)]).2.length
        = 3) := by
  have hseg : ∀ a b : ℚ, b - a = 1 → segLen (a, 0, 0) (b, 0, 0) = 1 := by
    intro a b h
    show Real.sqrt ((((b - a) * (b - a) + ((0 : ℚ) - 0) * ((0 : ℚ) - 0)
        + ((0 : ℚ) - 0) * ((0 : ℚ) - 0)) : ℚ) : ℝ) = 1
    rw [show (((b - a) * (b - a) + ((0 : ℚ) - 0) * ((0 : ℚ) - 0)
        + ((0 : ℚ) - 0) * ((0 : ℚ) - 0)) : ℚ) = 1 by rw [h]; ring]
    rw [Rat.cast_one, Real.sqrt_one]
  refine ⟨?_, ?_, ?_, ?_⟩
  · intro path
    refine ⟨?_, ?_, calc_energy_slow_eq_opt sS sO path⟩
    · rw [calc_energy_opt_eq]
      unfold specTotalEnergy
      rw [show (fun i => segLen (path.getD i (0, 0, 0))
            (path.getD (i + 1) (0, 0, 0)) * 10)
          = (fun i => 10 * segLen (path.getD i (0, 0, 0))
              (path.getD (i + 1) (0, 0, 0))) by funext i; ring]
    · rw [calc_energy_opt_eq]
      unfold specEnergyLog
      rw [show (fun i => (i, segLen (path.getD i (0, 0, 0))
            (path.getD (i + 1) (0, 0, 0)) * 10))
          = (fun i => (i, 10 * segLen (path.getD i (0, 0, 0))
              (path.getD (i + 1) (0, 0, 0)))) by funext i; rw [mul_comm]]
  · intro path h
    rw [calc_energy_opt_eq, show path.length - 1 = 0 by omega]
    simp
  · have hcalc : (sO.calculate_energy_consumption
        [((0 : ℚ), (0 : ℚ), (0 : ℚ)), (1, 0, 0), (2, 0, 0), (3, 0, 0)]).1
        = ((0 + segLen ((0 : ℚ), (0 : ℚ), (0 : ℚ)) (1, 0, 0) * 10)
            + segLen ((1 : ℚ), (0 : ℚ), (0 : ℚ)) (2, 0, 0) * 10)
          + segLen ((2 : ℚ), (0 : ℚ), (0 : ℚ)) (3, 0, 0) * 10 := rfl
    rw [hcalc, hseg 0 1 (by norm_num), hseg 1 2 (by norm_num),
      hseg 2 3 (by norm_num)]
    norm_num
  · rfl

/-- Witness for C5: a one-waypoint path yields zero energy and an empty
log. -/
theorem C5_witness :
    (MechanicalDogOptimized.mk0 "Spot").calculate_energy_consumption
      [((5 : ℚ), (5 : ℚ), (5 : ℚ))] = (0, []) :=
  (C5_energy_spec (MechanicalDog.mk0 "Spot")
    (MechanicalDogOptimized.mk0 "Spot")).2.1 [((5 : ℚ), (5 : ℚ), (5 : ℚ))]
    (by decide)

/-- C9 counterexample: at `numSamples = -1` the two variants return
different scan results — the slow scan returns the empty list, the
optimized scan returns one zero reading. -/
theorem C9_counterexample :
    ((MechanicalDog.mk0 "Spot").scan_environment (-1)).2
      ≠ ((MechanicalDogOptimized.mk0 "Spot").scan_environment (-1)).2 := by
  have hslow : ((MechanicalDog.mk0 "Spot").scan_environment (-1)).2 = [] := rfl
  have hopt : ((MechanicalDogOptimized.mk0 "Spot").scan_environment (-1)).2
      = List.replicate (((-1 : ℤ) * (-1)).toNat) (0 : ℚ) :=
    scan_environment_opt_neg _ _ (by decide)
  rw [hslow, hopt]
  decide

/-- C9 (amended): on every identical *valid* input — `numSamples ≥ 0` for
the scanner — the slow and optimized variants return exactly equal results
(so well within the `1e-6` / `1e-3` tolerances): equal positions after an
update from equal state, equal limb distances, equal scan readings,
set-equal obstacle classifications, identical paths (the squared-distance
test stops at exactly the iteration of the `sqrt`-based test), and
identical energy reports; for negative `numSamples` the scan results
differ. -/
theorem C9_variant_equivalence :
    (∀ (sS : MechanicalDog) (sO : MechanicalDogOptimized) (dt : ℚ),
        sS.position = sO.position → sS.velocity = sO.velocity →
        (sS.update_position dt).position = (sO.update_position dt).position)
    ∧ (∀ (sS : MechanicalDog) (sO : MechanicalDogOptimized),
        sS.leg_positions = sO.leg_positions →
        ∀ (i : ℤ) (t : Vec3),
          sS.calculate_leg_kinematics i t = sO.calculate_leg_kinematics i t)
    ∧ (∀ (sS : MechanicalDog) (sO : MechanicalDogOptimized) (n : ℤ),
        0 ≤ n → (sS.scan_environment n).2 = (sO.scan_environment n).2)
    ∧ (∀ (sS : MechanicalDog) (sO : MechanicalDogOptimized)
        (field : List ℚ) (x : ℚ),
        x ∈ sS.find_obstacles field ↔ x ∈ sO.find_obstacles field)
    ∧ (∀ (sS : MechanicalDog) (sO : MechanicalDogOptimized)
        (start goal : Vec3) (obstacles : List ℚ),
        sS.plan_path start goal obstacles = sO.plan_path start goal obstacles)
    ∧ (∀ (sS : MechanicalDog) (sO : MechanicalDogOptimized) (path : List Vec3),
        sS.calculate_energy_consumption path
          = sO.calculate_energy_consumption path) := by
  refine ⟨?_, ?_, ?_, ?_, ?_, ?_⟩
  · intro sS sO dt hp hv
    show (sS.position.1 + sS.velocity.1 * dt,
        sS.position.2.1 + sS.velocity.2.1 * dt,
        sS.position.2.2 + sS.velocity.2.2 * dt)
      = (sO.position.1 + sO.velocity.1 * dt,
        sO.position.2.1 + sO.velocity.2.1 * dt,
        sO.position.2.2 + sO.velocity.2.2 * dt)
    rw [hp, hv]
  · intro sS sO h i t
    exact kinematics_slow_eq_opt sS sO h i t
  · intro sS sO n hn
    rw [scan_environment_opt_readings sO n hn]
    rfl
  · intro sS sO field x
    constructor
    · intro hx
      rcases (findObstaclesSlow_mem field [] x).mp hx with h0 | h1
      · exact absurd h0 (List.not_mem_nil x)
      · exact (findObstaclesOpt_mem field ∅ x).mpr (Or.inr h1)
    · intro hx
      rcases (findObstaclesOpt_mem field ∅ x).mp hx with h0 | h1
      · exact absurd h0 (Finset.not_mem_empty x)
      · exact (findObstaclesSlow_mem field [] x).mpr (Or.inr h1)
  · intro sS sO start goal obstacles
    exact planLoopSlow_eq_planLoopOpt goal start 1000
  · intro sS sO path
    exact calc_energy_slow_eq_opt sS sO path

/-- Witness for C9 on concrete valid inputs: equal updated positions, equal
scan readings at `numSamples = 2`, and agreeing obstacle membership. -/
theorem C9_witness :
    ((MechanicalDog.mk0 "Spot").update_position 1).position
        = ((MechanicalDogOptimized.mk0 "Spot").update_position 1).position
    ∧ ((MechanicalDog.mk0 "Spot").scan_environment 2).2
        = ((MechanicalDogOptimized.mk0 "Spot").scan_environment 2).2
    ∧ ((1200 : ℚ) ∈ (MechanicalDog.mk0 "Spot").find_obstacles [500, 1200]
        ↔ (1200 : ℚ) ∈ (MechanicalDogOptimized.mk0 "Spot").find_obstacles
            [500, 1200]) :=
  ⟨C9_variant_equivalence.1 (MechanicalDog.mk0 "Spot")
      (MechanicalDogOptimized.mk0 "Spot") 1 rfl rfl,
   C9_variant_equivalence.2.2.1 (MechanicalDog.mk0 "Spot")
      (MechanicalDogOptimized.mk0 "Spot") 2 (by decide),
   C9_variant_equivalence.2.2.2.1 (MechanicalDog.mk0 "Spot")
      (MechanicalDogOptimized.mk0 "Spot") [500, 1200] 1200⟩

end DogSim
